import Mathlib

/-!
# Verification of the `toolcall` MCP server/client core

Shallow embedding of the `toolcall` repository (a minimal MCP — JSON-RPC
tool-invocation — server/client pair in TypeScript) and proofs about it.

* `Json` models the JSON values travelling on the wire.
* `Zod` models the subset of Zod schema constructors the repository uses
  (`z.string`, `z.number`, `z.boolean`, `z.enum`, `z.array`, `z.object`,
  `.optional()`, `.default()`, `.describe()`).
* `zodToJsonSchema` models the third-party `zod-to-json-schema` library
  (target `openApi3`) on that subset.
* `zodToMcpSchema` embeds `src/schema.ts`.
* `handleRequest` embeds the request dispatcher of `src/server.ts`.
* `McpClientState` / `handleProcessExit` / `clientCallProcess` embed the
  client (`src/client.ts`).
-/

/-- JSON values: the output of `JSON.parse` / the input of `JSON.stringify`.
Numbers are modelled as integers (the protocol payloads and
tests only use integral numbers; floating point is out of scope). -/
inductive Json where
  | null : Json
  | bool : Bool → Json
  | num : Int → Json
  | str : String → Json
  | arr : List Json → Json
  | obj : List (String × Json) → Json

/-- Property read `j[k]` on a JSON value: `some` when `j` is an object that
has the key, `none` (JS `undefined`) otherwise. -/
def Json.lookupKey : Json → String → Option Json
  | .obj fields, k => fields.lookup k
  | _, _ => none

/-- Model of the Zod schema constructors used by the repository.
`opt` is `.optional()`, `withDefault` is `.default(v)`, `describe` is
`.describe(text)`. -/
inductive Zod where
  | str : Zod
  | num : Zod
  | boolean : Zod
  | enumOf : List String → Zod
  | arrayOf : Zod → Zod
  | obj : List (String × Zod) → Zod
  | opt : Zod → Zod
  | withDefault : Json → Zod → Zod
  | describe : String → Zod → Zod

/-- The Zod `isOptional()` check as consulted by `zod-to-json-schema` when it decides
the `required` list of an object schema: a field is optional when it is
wrapped in `.optional()` or `.default(v)` (possibly under `.describe`). -/
def Zod.isOptionalField : Zod → Bool
  | .opt _ => true
  | .withDefault _ _ => true
  | .describe _ inner => inner.isOptionalField
  | _ => false

/-- Add (or overwrite with append semantics) a key on a JSON-schema object;
used for the `default` and `description` annotations `zod-to-json-schema`
attaches to the wrapped schema. -/
def Json.setKey : Json → String → Json → Json
  | .obj fields, k, v => .obj (fields ++ [(k, v)])
  | j, _, _ => j

/-- Model of the third-party `zodToJsonSchema(schema, with target openApi3)`
call on the Zod subset above.  An object schema yields
`type:"object"` with `properties`, a `required` array listing the
non-optional, non-defaulted field names in declaration order (omitted when
empty), and `additionalProperties:false`; `.optional()` disappears into the
surrounding object `required` computation; `.default` and `.describe`
annotate the inner schema. -/
def zodToJsonSchema : Zod → Json
  | .str => .obj [("type", .str "string")]
  | .num => .obj [("type", .str "number")]
  | .boolean => .obj [("type", .str "boolean")]
  | .enumOf vals => .obj [("type", .str "string"), ("enum", .arr (vals.map Json.str))]
  | .arrayOf inner => .obj [("type", .str "array"), ("items", zodToJsonSchema inner)]
  | .opt inner => zodToJsonSchema inner
  | .withDefault d inner => (zodToJsonSchema inner).setKey "default" d
  | .describe text inner => (zodToJsonSchema inner).setKey "description" (.str text)
  | .obj fields =>
      let props := fields.attach.map (fun x => (x.1.1, zodToJsonSchema x.1.2))
      let req := (fields.filter (fun f => !(Zod.isOptionalField f.2))).map Prod.fst
      .obj ([("type", .str "object"), ("properties", .obj props)] ++
        (if req.isEmpty then [] else [("required", .arr (req.map Json.str))]) ++
        [("additionalProperties", .bool false)])
termination_by z => sizeOf z
decreasing_by
  all_goals simp_wf
  have hm := List.sizeOf_lt_of_mem x.2
  obtain ⟨⟨n, s⟩, h⟩ := x
  simp at hm ⊢
  omega

/-- The `inputSchema` field of an MCP tool definition
(the `inputSchema` member of `McpToolDefinition` in `src/types.ts`): its `type` is
always the literal `"object"`, so only `properties` and the optional
`required` array are recorded. -/
structure McpInputSchema where
  properties : List (String × Json)
  required : Option (List String)

/-- The guard in `zodToMcpSchema`:
`typeof jsonSchema` is object and `jsonSchema.type` equals "object". -/
def isObjectRootSchema (j : Json) : Bool :=
  match j with
  | .obj fields =>
      match fields.lookup "type" with
      | some (.str "object") => true
      | _ => false
  | _ => false

/-- The unchecked TS cast of `jsonSchema.required` to `string[]`. -/
def jsonRequiredStrings : Json → List String
  | .arr xs => xs.filterMap (fun v => match v with | .str s => some s | _ => none)
  | _ => []

/-- Embedding of `zodToMcpSchema` (`src/schema.ts`): convert a Zod schema to
an MCP-compatible JSON schema, wrapping non-object roots in a single
required `value` property. -/
def zodToMcpSchema (schema : Zod) : McpInputSchema :=
  let jsonSchema := zodToJsonSchema schema
  if isObjectRootSchema jsonSchema then
    ⟨(match jsonSchema.lookupKey "properties" with
      | some (.obj ps) => ps
      | _ => []),
     (match jsonSchema.lookupKey "required" with
      | some r => some (jsonRequiredStrings r)
      | none => none)⟩
  else
    ⟨[("value", jsonSchema)], some ["value"]⟩

/-- JSON-RPC request id: `number | string` in `src/types.ts`. -/
inductive RpcId where
  | num : Int → RpcId
  | str : String → RpcId
deriving DecidableEq

/-- JSON-RPC request (`JsonRpcRequest` in `src/types.ts`); the constant
`jsonrpc` protocol tag (always "2.0") is omitted. `params` is `none` when absent. -/
structure JsonRpcRequest where
  id : RpcId
  method : String
  params : Option Json

/-- The `error` member of a JSON-RPC response. -/
structure RpcError where
  code : Int
  message : String
  data : Option Json

/-- JSON-RPC response (`JsonRpcResponse` in `src/types.ts`); exactly the
fields that can be present on the wire: `result` and `error` are each
optional. -/
structure JsonRpcResponse where
  id : RpcId
  result : Option Json
  error : Option RpcError

/-- A tool definition (`ToolDefinition` in `src/types.ts`). `execute`
models the user-supplied (possibly async) JS function: `.ok v` is a
returned value, `.error msg` a thrown exception whose message text is
`msg`. -/
structure ToolDefinition where
  description : String
  parameters : Zod
  execute : Json → Except String Json

/-- The tool registry: tool name to definition, in declaration order. -/
abbrev ToolRegistry := List (String × ToolDefinition)

/-- The Zod default-value annotation visible at the top of a field schema
(possibly under `.describe`); used by `safeParse` for absent fields. -/
def Zod.defaultValue : Zod → Option Json
  | .withDefault d _ => some d
  | .describe _ inner => inner.defaultValue
  | _ => none

/-- One Zod validation issue: the field path and a human-readable message. -/
abbrev ZodIssue := List String × String

/-- Model of the non-throwing Zod `schema.safeParse(value)` on the embedded
subset: `.ok` carries the parsed data (unknown keys stripped, defaults
applied), `.error` the list of issues with their field paths. -/
def zodParse : Zod → Json → Except (List ZodIssue) Json
  | .str, .str s => .ok (.str s)
  | .str, _ => .error [([], "Expected string")]
  | .num, .num n => .ok (.num n)
  | .num, _ => .error [([], "Expected number")]
  | .boolean, .bool b => .ok (.bool b)
  | .boolean, _ => .error [([], "Expected boolean")]
  | .enumOf vals, .str s =>
      if s ∈ vals then .ok (.str s) else .error [([], "Invalid enum value")]
  | .enumOf _, _ => .error [([], "Expected string")]
  | .arrayOf inner, .arr xs =>
      let results := xs.enum.map (fun p =>
        match zodParse inner p.2 with
        | .ok v => Except.ok v
        | .error issues => .error (issues.map (fun (i : ZodIssue) => (toString p.1 :: i.1, i.2))))
      let issues := results.foldr
        (fun r acc => match r with | .error is => is ++ acc | .ok _ => acc) []
      if issues.isEmpty then
        .ok (.arr (results.foldr
          (fun r acc => match r with | .ok v => v :: acc | .error _ => acc) []))
      else .error issues
  | .arrayOf _, _ => .error [([], "Expected array")]
  | .opt inner, v => zodParse inner v
  | .withDefault _ inner, v => zodParse inner v
  | .describe _ inner, v => zodParse inner v
  | .obj fields, .obj o =>
      let results := fields.attach.map (fun x =>
        match o.lookup x.1.1 with
        | some v =>
            match zodParse x.1.2 v with
            | .ok v2 => Except.ok (some (x.1.1, v2))
            | .error issues => .error (issues.map (fun (i : ZodIssue) => (x.1.1 :: i.1, i.2)))
        | none =>
            match x.1.2.defaultValue with
            | some d => .ok (some (x.1.1, d))
            | none =>
                if x.1.2.isOptionalField then .ok none
                else .error [([x.1.1], "Required")])
      let issues := results.foldr
        (fun r acc => match r with | .error is => is ++ acc | .ok _ => acc) []
      if issues.isEmpty then
        .ok (.obj (results.foldr
          (fun r acc => match r with | .ok (some kv) => kv :: acc | _ => acc) []))
      else .error issues
  | .obj _, _ => .error [([], "Expected object")]
termination_by z _ => sizeOf z
decreasing_by
  all_goals simp_wf
  have hm := List.sizeOf_lt_of_mem x.2
  obtain ⟨⟨n, s⟩, h⟩ := x
  simp at hm ⊢
  omega

/-- Model of `parseResult.error.format()`: the structured field-level
report Zod builds from the issues, one level deep (the only depth the
schemas in the repository need): a top-level `_errors` array of
root-position messages plus, per offending field, an object with that
field an object with that field messages. -/
def formatIssues (issues : List ZodIssue) : Json :=
  .obj (("_errors",
      .arr (issues.filterMap (fun i =>
        if i.1 = ([] : List String) then some (.str i.2) else none))) ::
    issues.filterMap (fun i =>
      match i.1 with
      | name :: _ => some (name, Json.obj [("_errors", .arr [.str i.2])])
      | [] => none))

/-- Two-space indentation used by `JSON.stringify(v, null, 2)`. -/
def jsonIndent (depth : Nat) : String := String.mk (List.replicate (2 * depth) ' ')

/-- JSON string escaping for `JSON.stringify`. -/
def escapeJsonChar (c : Char) : String :=
  if c = '"' then "\\\""
  else if c = '\\' then "\\\\"
  else if c = '\n' then "\\n"
  else if c = '\t' then "\\t"
  else if c = '\r' then "\\r"
  else String.singleton c

/-- A JSON-quoted string literal. -/
def escapeJsonString (s : String) : String :=
  "\"" ++ String.join (s.toList.map escapeJsonChar) ++ "\""

/-- Model of `JSON.stringify(v, null, 2)` at nesting depth `depth`. -/
def jsonStringify (v : Json) (depth : Nat) : String :=
  match v with
  | .null => "null"
  | .bool true => "true"
  | .bool false => "false"
  | .num n => toString n
  | .str s => escapeJsonString s
  | .arr [] => "[]"
  | .arr xs =>
      "[\n" ++ String.intercalate ",\n"
        (xs.attach.map (fun x => jsonIndent (depth + 1) ++ jsonStringify x.1 (depth + 1))) ++
      "\n" ++ jsonIndent depth ++ "]"
  | .obj [] => "\x7b\x7d"
  | .obj fields =>
      "\x7b\n" ++ String.intercalate ",\n"
        (fields.attach.map (fun x =>
          jsonIndent (depth + 1) ++ escapeJsonString x.1.1 ++ ": " ++
            jsonStringify x.1.2 (depth + 1))) ++
      "\n" ++ jsonIndent depth ++ "\x7d"
termination_by sizeOf v
decreasing_by
  all_goals simp_wf
  · have hm := List.sizeOf_lt_of_mem x.2
    simp at hm ⊢
    omega
  · have hm := List.sizeOf_lt_of_mem x.2
    obtain ⟨⟨n, s⟩, h⟩ := x
    simp at hm ⊢
    omega

/-- JS `String(v)` / template-literal conversion of a JSON value (array
elements that are `null` render empty inside `Array.prototype.join`). -/
def jsStringOf (v : Json) : String :=
  match v with
  | .null => "null"
  | .bool true => "true"
  | .bool false => "false"
  | .num n => toString n
  | .str s => s
  | .arr xs =>
      String.intercalate ","
        (xs.attach.map (fun x =>
          match x.1 with
          | .null => ""
          | _ => jsStringOf x.1))
  | .obj _ => "[object Object]"
termination_by sizeOf v
decreasing_by
  all_goals simp_wf
  have hm := List.sizeOf_lt_of_mem x.2
  simp at hm
  omega

/-- JS stringification of a possibly-`undefined` value (`none` is
`undefined`), as used both for the registry property key `tools[toolName]`
and inside the template literal `Unknown tool: ...`. -/
def jsToDisplayString : Option Json → String
  | none => "undefined"
  | some v => jsStringOf v

/-- The destructuring `const ... = params` at the head of the `tools/call`
branch: throws a `TypeError` when `params` is absent (`undefined`) or
`null`; on any other value each property read yields the member or
`undefined` (`none`). Returns (name value, arguments value). -/
def extractCallParams : Option Json → Except String (Option Json × Option Json)
  | none => .error "Cannot destructure property name of params as it is undefined."
  | some .null => .error "Cannot destructure property name of params as it is null."
  | some (.obj o) => .ok (o.lookup "name", o.lookup "arguments")
  | some _ => .ok (none, none)

/-- Registry lookup, the own-property part of the JS property access
`tools[toolName]`: the property key is the JS string conversion of the
(possibly `undefined`) `name` member, and `some` is returned exactly for
the keys the registry object literal itself carries.  Keys the access
finds further up the prototype chain are handled separately via
`objectPrototypeKeys`. -/
def lookupTool (tools : ToolRegistry) (nameVal : Option Json) : Option ToolDefinition :=
  tools.lookup (jsToDisplayString nameVal)

/-- Property names a plain JS object literal inherits from
`Object.prototype`: for these keys `tools[toolName]` yields the inherited
member (a function, or `Object.prototype` itself for the `__proto__`
accessor) even though the name is absent from the registry.  Every such
member is truthy, so `if (!toolDef)` does not take the unknown-tool
branch, and the subsequent `toolDef.parameters.safeParse` access throws a
`TypeError` (reading `safeParse` of `undefined`). -/
def objectPrototypeKeys : List String :=
  ["constructor", "hasOwnProperty", "isPrototypeOf", "propertyIsEnumerable",
   "toLocaleString", "toString", "valueOf", "__proto__",
   "__defineGetter__", "__defineSetter__", "__lookupGetter__", "__lookupSetter__"]

/-- `args ?? \x7b\x7d`: absent or `null` arguments coalesce to the empty
object. -/
def coalesceArgs : Option Json → Json
  | none => .obj []
  | some .null => .obj []
  | some v => v

/-- Rendering of an execution result: used verbatim when it is a string,
pretty-printed with `JSON.stringify(result, null, 2)` otherwise. -/
def renderResult : Json → String
  | .str s => s
  | v => jsonStringify v 0

/-- MCP server identity (`McpServerInfo` in `src/types.ts`). -/
structure McpServerInfo where
  name : String
  version : String

/-- The fixed protocol version string in `src/server.ts`. -/
def PROTOCOL_VERSION : String := "2024-11-05"

/-- An MCP tool definition in wire form (`McpToolDefinition` in
`src/types.ts`). -/
structure McpToolDefinition where
  name : String
  description : String
  inputSchema : McpInputSchema

/-- Embedding of `toolToMcpDefinition` (`src/schema.ts`). -/
def toolToMcpDefinition (name : String) (tool : ToolDefinition) : McpToolDefinition :=
  ⟨name, tool.description, zodToMcpSchema tool.parameters⟩

/-- JSON encoding of the wire-form input schema (`required` is dropped by
`JSON.stringify` when it is `undefined`). -/
def McpInputSchema.toJson (s : McpInputSchema) : Json :=
  .obj ([("type", .str "object"), ("properties", .obj s.properties)] ++
    (match s.required with
     | some req => [("required", .arr (req.map Json.str))]
     | none => []))

/-- JSON encoding of a wire-form tool definition. -/
def McpToolDefinition.toJson (t : McpToolDefinition) : Json :=
  .obj [("name", .str t.name), ("description", .str t.description),
        ("inputSchema", t.inputSchema.toJson)]

/-- The `tools/call` branch of `handleRequest` (`src/server.ts`): extract
the call parameters, look the tool up, validate with `safeParse`, execute,
render. A throwing step (`Except.error`) lands in the surrounding `catch`,
which produces the `-32603` internal-error response.  The lookup models
the full JS property access `tools[toolName]`: an absent name that is an
inherited `Object.prototype` key yields a truthy non-tool member, so the
unknown-tool branch is skipped and the `toolDef.parameters.safeParse`
access throws a `TypeError`, landing in the catch as well. -/
def handleToolsCall (tools : ToolRegistry) (request : JsonRpcRequest) : JsonRpcResponse :=
  match extractCallParams request.params with
  | .error msg => ⟨request.id, none, some ⟨-32603, "Internal error", some (.str msg)⟩⟩
  | .ok (toolName, args) =>
    match lookupTool tools toolName with
    | none =>
        if jsToDisplayString toolName ∈ objectPrototypeKeys then
          ⟨request.id, none,
           some ⟨-32603, "Internal error",
             some (.str "Cannot read properties of undefined (reading safeParse)")⟩⟩
        else
          ⟨request.id, none,
           some ⟨-32602, "Unknown tool: " ++ jsToDisplayString toolName, none⟩⟩
    | some toolDef =>
      match zodParse toolDef.parameters (coalesceArgs args) with
      | .error issues =>
          ⟨request.id, none,
           some ⟨-32602, "Invalid parameters", some (formatIssues issues)⟩⟩
      | .ok data =>
          match toolDef.execute data with
          | .error msg =>
              ⟨request.id, none, some ⟨-32603, "Internal error", some (.str msg)⟩⟩
          | .ok result =>
              ⟨request.id,
               some (.obj [("content", .arr [.obj [
                 ("type", .str "text"),
                 ("text", .str (renderResult result))]])]),
               none⟩

/-- Embedding of `handleRequest` (`src/server.ts`): route on the method
name; the JS `switch` is an equality chain. The `try/catch` around the
whole switch is embedded by propagating every throwing sub-step to the
`-32603` catch response inside `handleToolsCall` (the only branch with a
throwing step). -/
def handleRequest (serverInfo : McpServerInfo) (tools : ToolRegistry)
    (request : JsonRpcRequest) : JsonRpcResponse :=
  if request.method = "initialize" then
    ⟨request.id,
     some (.obj [
       ("protocolVersion", .str PROTOCOL_VERSION),
       ("capabilities", .obj [("tools", .obj [])]),
       ("serverInfo", .obj [("name", .str serverInfo.name),
                            ("version", .str serverInfo.version)])]),
     none⟩
  else if request.method = "notifications/initialized" then
    ⟨request.id, some (.obj []), none⟩
  else if request.method = "tools/list" then
    ⟨request.id,
     some (.obj [("tools",
       .arr (tools.map (fun t => (toolToMcpDefinition t.1 t.2).toJson)))]),
     none⟩
  else if request.method = "tools/call" then
    handleToolsCall tools request
  else if request.method = "ping" then
    ⟨request.id, some (.obj []), none⟩
  else
    ⟨request.id, none, some ⟨-32601, "Method not found: " ++ request.method, none⟩⟩

/-- Whitespace accepted between JSON tokens. -/
def isJsonWs (c : Char) : Bool :=
  c = ' ' || c = '\n' || c = '\t' || c = '\r'

/-- Skip leading JSON whitespace. -/
def skipWs : List Char → List Char
  | [] => []
  | c :: cs => if isJsonWs c then skipWs cs else c :: cs

/-- Parse the remainder of a JSON string literal (the opening quote already
consumed), handling the common escapes. -/
def parseJsonString : List Char → Option (String × List Char)
  | [] => none
  | '"' :: rest => some ("", rest)
  | '\\' :: e :: rest =>
      (parseJsonString rest).map (fun p =>
        (String.singleton
          (if e = 'n' then '\n' else if e = 't' then '\t'
           else if e = 'r' then '\r' else e) ++ p.1, p.2))
  | c :: rest => (parseJsonString rest).map (fun p => (String.singleton c ++ p.1, p.2))

/-- Parse a maximal run of decimal digits. -/
def parseJsonDigits : List Char → Option (Nat × List Char)
  | cs =>
    let digits := cs.takeWhile Char.isDigit
    if digits.isEmpty then none
    else some (digits.foldl (fun n c => 10 * n + (c.toNat - 48)) 0, cs.dropWhile Char.isDigit)

/-- Parse an (integral) JSON number with an optional leading minus. -/
def parseJsonNumber (cs : List Char) : Option (Json × List Char) :=
  match cs with
  | '-' :: rest => (parseJsonDigits rest).map (fun p => (.num (-(p.1 : Int)), p.2))
  | _ => (parseJsonDigits cs).map (fun p => (.num (p.1 : Int), p.2))

mutual

/-- Parse one JSON value; `fuel` bounds the nesting depth. -/
def parseJsonValue : Nat → List Char → Option (Json × List Char)
  | 0, _ => none
  | fuel + 1, cs =>
    match skipWs cs with
    | [] => none
    | 'n' :: 'u' :: 'l' :: 'l' :: rest => some (.null, rest)
    | 't' :: 'r' :: 'u' :: 'e' :: rest => some (.bool true, rest)
    | 'f' :: 'a' :: 'l' :: 's' :: 'e' :: rest => some (.bool false, rest)
    | '"' :: rest => (parseJsonString rest).map (fun p => (.str p.1, p.2))
    | '[' :: rest =>
        (match skipWs rest with
         | ']' :: rest2 => some (.arr [], rest2)
         | _ => (parseJsonElems fuel rest).map (fun p => (.arr p.1, p.2)))
    | '\x7b' :: rest =>
        (match skipWs rest with
         | '\x7d' :: rest2 => some (.obj [], rest2)
         | _ => (parseJsonMembers fuel rest).map (fun p => (.obj p.1, p.2)))
    | c :: rest =>
        if c.isDigit || c = '-' then parseJsonNumber (c :: rest) else none

/-- Parse the comma-separated elements of a non-empty JSON array, up to and
including the closing bracket. -/
def parseJsonElems : Nat → List Char → Option (List Json × List Char)
  | 0, _ => none
  | fuel + 1, cs =>
    match parseJsonValue fuel cs with
    | none => none
    | some (v, rest) =>
      match skipWs rest with
      | ',' :: rest2 => (parseJsonElems fuel rest2).map (fun p => (v :: p.1, p.2))
      | ']' :: rest2 => some ([v], rest2)
      | _ => none

/-- Parse the members of a non-empty JSON object, up to and including the
closing brace. -/
def parseJsonMembers : Nat → List Char → Option (List (String × Json) × List Char)
  | 0, _ => none
  | fuel + 1, cs =>
    match skipWs cs with
    | '"' :: rest =>
      (match parseJsonString rest with
       | none => none
       | some (k, rest2) =>
         match skipWs rest2 with
         | ':' :: rest3 =>
           (match parseJsonValue fuel rest3 with
            | none => none
            | some (v, rest4) =>
              match skipWs rest4 with
              | ',' :: rest5 => (parseJsonMembers fuel rest5).map (fun p => ((k, v) :: p.1, p.2))
              | '\x7d' :: rest5 => some ([(k, v)], rest5)
              | _ => none)
         | _ => none)
    | _ => none

end

/-- Model of the JS builtin `JSON.parse(s)`: `some` the parsed value when
`s` is one JSON value (surrounded by only whitespace), `none` when the
builtin would throw a `SyntaxError` — in particular on the empty string. -/
def jsonParse (s : String) : Option Json :=
  match parseJsonValue (s.length + 1) s.toList with
  | some (v, rest) => if (skipWs rest).isEmpty then some v else none
  | none => none

/-- Client-side connection state (`McpClient` in `src/client.ts`):
`requestId` is the id counter incremented by `request`, and
`pendingRequests` holds the ids of the in-flight requests whose
resolve/reject continuations sit in the pending map (the map keys are the
numeric ids `++this.requestId` allocates). -/
structure McpClientState where
  requestId : Nat
  pendingRequests : List Nat

/-- Embedding of the exit handler installed by `McpClient.connect`
(`src/client.ts`): when the subordinate process exits, every pending
continuation is rejected with `new Error("Process exited")` and the
pending map is cleared.  The second component lists the rejections the
handler issues as (request id, error message) pairs. -/
def handleProcessExit (st : McpClientState) : McpClientState × List (Nat × String) :=
  (⟨st.requestId, []⟩, st.pendingRequests.map (fun i => (i, "Process exited")))

/-- Outcome of `McpClient.call` as seen by its caller: `.ok` the returned
value, `.err` the message of a thrown (rejected) `Error`. -/
inductive CallOutcome where
  | ok : Json → CallOutcome
  | err : String → CallOutcome

/-- Embedding of the response processing in `McpClient.call`
(`src/client.ts`): an error-shaped response throws an `Error` with the
error message; otherwise the first content item text (defaulting to the
empty string via the optional-chaining read) is parsed with `JSON.parse`,
falling back to the raw text when parsing throws.  Reads that throw a JS
`TypeError` (missing `result` or `content`) become `.err` outcomes. -/
def clientCallProcess (resp : JsonRpcResponse) : CallOutcome :=
  match resp.error with
  | some e => .err e.message
  | none =>
    match resp.result with
    | none => .err "Cannot read properties of undefined (reading content)"
    | some r =>
      match r with
      | .obj o =>
        (match o.lookup "content" with
         | none => .err "Cannot read properties of undefined (reading 0)"
         | some .null => .err "Cannot read properties of null (reading 0)"
         | some (.arr items) =>
             let text :=
               match items with
               | [] => ""
               | first :: _ =>
                 match first with
                 | .obj f => (match f.lookup "text" with | some (.str s) => s | _ => "")
                 | _ => ""
             (match jsonParse text with
              | some v => .ok v
              | none => .ok (.str text))
         | some _ =>
             (match jsonParse "" with
              | some v => .ok v
              | none => .ok (.str "")))
      | _ => .err "Cannot read properties of undefined (reading 0)"

/-! ## Helper lemmas -/

lemma handleToolsCall_id (tools : ToolRegistry) (request : JsonRpcRequest) :
    (handleToolsCall tools request).id = request.id := by
  unfold handleToolsCall
  repeat' split
  all_goals rfl

lemma handleToolsCall_exclusive (tools : ToolRegistry) (request : JsonRpcRequest) :
    ((handleToolsCall tools request).result.isSome ∧ (handleToolsCall tools request).error = none) ∨
    ((handleToolsCall tools request).result = none ∧ (handleToolsCall tools request).error.isSome) := by
  unfold handleToolsCall
  repeat' split
  all_goals simp

lemma zodToMcpSchema_obj_eq (fields : List (String × Zod)) :
    zodToMcpSchema (.obj fields) =
      ⟨fields.map (fun f => (f.1, zodToJsonSchema f.2)),
       (if ((fields.filter (fun f => !(Zod.isOptionalField f.2))).map Prod.fst).isEmpty
        then none
        else some ((fields.filter (fun f => !(Zod.isOptionalField f.2))).map Prod.fst))⟩ := by
  unfold zodToMcpSchema
  rw [zodToJsonSchema]
  by_cases hreq : ((fields.filter (fun f => !(Zod.isOptionalField f.2))).map Prod.fst).isEmpty
  · simp only [hreq, if_true, reduceIte]
    simp [isObjectRootSchema, Json.lookupKey, List.lookup,
      List.attach_map_val fields (fun f => (f.1, zodToJsonSchema f.2))]
  · simp only [hreq, if_false, Bool.false_eq_true, reduceIte]
    simp [isObjectRootSchema, Json.lookupKey, List.lookup, jsonRequiredStrings,
      List.attach_map_val fields (fun f => (f.1, zodToJsonSchema f.2)), Function.comp_def]
    exact congrFun (List.filterMap_eq_map Prod.fst) _

lemma Zod.defaultValue_isOptionalField : ∀ (s : Zod), s.defaultValue.isSome = true →
    s.isOptionalField = true
  | .withDefault _ _, _ => rfl
  | .describe _ inner, h => Zod.defaultValue_isOptionalField inner h
  | .str, h => by simp [Zod.defaultValue] at h
  | .num, h => by simp [Zod.defaultValue] at h
  | .boolean, h => by simp [Zod.defaultValue] at h
  | .enumOf _, h => by simp [Zod.defaultValue] at h
  | .arrayOf _, h => by simp [Zod.defaultValue] at h
  | .obj _, h => by simp [Zod.defaultValue] at h
  | .opt _, h => by simp [Zod.defaultValue] at h

lemma eq_of_mem_of_nodup_keys {α β : Type} {l : List (α × β)}
    (hnd : (l.map Prod.fst).Nodup) {a : α} {b c : β}
    (h1 : (a, b) ∈ l) (h2 : (a, c) ∈ l) : b = c := by
  induction l with
  | nil => cases h1
  | cons x t ih =>
    obtain ⟨xa, xb⟩ := x
    rw [List.map_cons, List.nodup_cons] at hnd
    rcases List.mem_cons.mp h1 with h1h | h1t <;> rcases List.mem_cons.mp h2 with h2h | h2t
    · injection h1h with ha hb
      injection h2h with ha2 hc
      rw [hb, hc]
    · injection h1h with ha hb
      subst ha
      exact absurd (List.mem_map.mpr ⟨(a, c), h2t, rfl⟩) hnd.1
    · injection h2h with ha hc
      subst ha
      exact absurd (List.mem_map.mpr ⟨(a, b), h1t, rfl⟩) hnd.1
    · exact ih hnd.2 h1t h2t

/-! ## Claim theorems -/

/-- C1: `handleRequest` is a total function (it never throws outward), and
any exception raised during params extraction or tool execution — the two
throwing steps inside the `try` — is caught and converted to an error
response with code `-32603`, message `Internal error`, and `data` equal to
the exception message text. -/
theorem handleRequest_internal_error (serverInfo : McpServerInfo) (tools : ToolRegistry)
    (request : JsonRpcRequest) (msg : String)
    (hm : request.method = "tools/call")
    (hthrow :
      extractCallParams request.params = .error msg ∨
      (∃ toolName args toolDef data,
        extractCallParams request.params = .ok (toolName, args) ∧
        lookupTool tools toolName = some toolDef ∧
        zodParse toolDef.parameters (coalesceArgs args) = .ok data ∧
        toolDef.execute data = .error msg)) :
    handleRequest serverInfo tools request =
      ⟨request.id, none, some ⟨-32603, "Internal error", some (.str msg)⟩⟩ := by
  unfold handleRequest handleToolsCall
  rcases hthrow with h | ⟨toolName, args, toolDef, data, hx, hl, hv, he⟩
  · simp only [hm, String.reduceEq, reduceIte, h]
  · simp only [hm, String.reduceEq, reduceIte, hx, hl, hv, he]

theorem handleRequest_internal_error_witness :
    handleRequest ⟨"srv", "1.0.0"⟩
      [("boom", ⟨"always throws", Zod.str, fun _ => .error "kaboom"⟩)]
      ⟨.num 3, "tools/call", some (.obj [("name", .str "boom"), ("arguments", .str "hi")])⟩ =
      ⟨.num 3, none, some ⟨-32603, "Internal error", some (.str "kaboom")⟩⟩ :=
  handleRequest_internal_error _ _ _ _ rfl
    (Or.inr ⟨some (.str "boom"), some (.str "hi"),
      ⟨"always throws", Zod.str, fun _ => .error "kaboom"⟩, .str "hi", rfl,
      by simp [lookupTool, jsToDisplayString, jsStringOf, List.lookup],
      by simp [zodParse, coalesceArgs], rfl⟩)

/-- C2: for every request, the id of the response `handleRequest` produces
is exactly the id of the request — for every method name, on error paths
and success paths alike. -/
theorem handleRequest_id_echo (serverInfo : McpServerInfo) (tools : ToolRegistry)
    (request : JsonRpcRequest) :
    (handleRequest serverInfo tools request).id = request.id := by
  unfold handleRequest
  repeat' split
  all_goals first | rfl | exact handleToolsCall_id tools request

/-- C3: when a `tools/call` request names a registered tool but the
arguments fail validation, the response is an error with code `-32602`,
message exactly `Invalid parameters`, and `data` the structured field-level
report built from the validation issues.  `toolDef` — and in particular its
`execute` function — is universally quantified and unconstrained, so the
same error response results whatever `execute` is: the tool is never
invoked. -/
theorem handleRequest_invalid_params (serverInfo : McpServerInfo) (tools : ToolRegistry)
    (request : JsonRpcRequest) (toolName args : Option Json) (toolDef : ToolDefinition)
    (issues : List ZodIssue)
    (hm : request.method = "tools/call")
    (hx : extractCallParams request.params = .ok (toolName, args))
    (hl : lookupTool tools toolName = some toolDef)
    (hv : zodParse toolDef.parameters (coalesceArgs args) = .error issues) :
    handleRequest serverInfo tools request =
      ⟨request.id, none, some ⟨-32602, "Invalid parameters", some (formatIssues issues)⟩⟩ := by
  unfold handleRequest handleToolsCall
  simp only [hm, String.reduceEq, reduceIte, hx, hl, hv]

theorem handleRequest_invalid_params_witness :
    handleRequest ⟨"srv", "1.0.0"⟩
      [("greet", ⟨"greets", Zod.obj [("name", Zod.str)], fun v => .ok v⟩)]
      ⟨.str "a", "tools/call", some (.obj [("name", .str "greet")])⟩ =
      ⟨.str "a", none,
       some ⟨-32602, "Invalid parameters", some (formatIssues [(["name"], "Required")])⟩⟩ :=
  handleRequest_invalid_params _ _ _ (some (.str "greet")) none
    ⟨"greets", Zod.obj [("name", Zod.str)], fun v => .ok v⟩ [(["name"], "Required")]
    rfl rfl
    (by simp [lookupTool, jsToDisplayString, jsStringOf, List.lookup])
    (by simp [zodParse, coalesceArgs, Zod.defaultValue, Zod.isOptionalField])

/-- C4 (amended): a `tools/call` request whose tool name is absent from
the registry *and is not an inherited `Object.prototype` property name*
yields an error with code `-32602`, message `Unknown tool: <name>`, and no
data payload.  The registry entries (including every `execute` function)
are universally quantified and the response does not depend on them, so no
tool is executed.  The exclusion is forced by the counterexample below:
for absent names such as `toString` the JS property access finds the
truthy inherited member and the program answers `-32603` instead. -/
theorem handleRequest_unknown_tool (serverInfo : McpServerInfo) (tools : ToolRegistry)
    (request : JsonRpcRequest) (name : String) (args : Option Json)
    (hm : request.method = "tools/call")
    (hx : extractCallParams request.params = .ok (some (.str name), args))
    (hl : lookupTool tools (some (.str name)) = none)
    (hp : name ∉ objectPrototypeKeys) :
    handleRequest serverInfo tools request =
      ⟨request.id, none, some ⟨-32602, "Unknown tool: " ++ name, none⟩⟩ := by
  unfold handleRequest handleToolsCall
  simp only [hm, String.reduceEq, reduceIte, hx, hl]
  simp [jsToDisplayString, jsStringOf, hp]

theorem handleRequest_unknown_tool_witness :
    handleRequest ⟨"srv", "1.0.0"⟩ []
      ⟨.num 7, "tools/call", some (.obj [("name", .str "nope")])⟩ =
      ⟨.num 7, none, some ⟨-32602, "Unknown tool: nope", none⟩⟩ :=
  handleRequest_unknown_tool _ _ _ "nope" none rfl rfl rfl (by decide)

/-- C4 (counterexample to the original claim): `toString` is absent from
the (empty) registry, yet the response is the `-32603` internal error —
the inherited `Object.prototype.toString` member passes the existence
check and the `safeParse` access throws — and in particular it is not the
claimed `-32602` unknown-tool response. -/
theorem handleRequest_unknown_tool_counterexample :
    handleRequest ⟨"srv", "1.0.0"⟩ []
      ⟨.num 7, "tools/call", some (.obj [("name", .str "toString")])⟩ =
      ⟨.num 7, none, some ⟨-32603, "Internal error",
        some (.str "Cannot read properties of undefined (reading safeParse)")⟩⟩ ∧
    handleRequest ⟨"srv", "1.0.0"⟩ []
      ⟨.num 7, "tools/call", some (.obj [("name", .str "toString")])⟩ ≠
      ⟨.num 7, none, some ⟨-32602, "Unknown tool: toString", none⟩⟩ := by
  have h1 : handleRequest ⟨"srv", "1.0.0"⟩ []
      ⟨.num 7, "tools/call", some (.obj [("name", .str "toString")])⟩ =
      ⟨.num 7, none, some ⟨-32603, "Internal error",
        some (.str "Cannot read properties of undefined (reading safeParse)")⟩⟩ := by
    unfold handleRequest handleToolsCall
    simp [extractCallParams, lookupTool, jsToDisplayString, jsStringOf, objectPrototypeKeys]
  refine ⟨h1, ?_⟩
  rw [h1]
  simp

/-- C5: every response `handleRequest` produces carries exactly one of
`result` and `error` — never both, never neither — for every request and
method, on error paths and success paths alike. -/
theorem handleRequest_exclusive (serverInfo : McpServerInfo) (tools : ToolRegistry)
    (request : JsonRpcRequest) :
    ((handleRequest serverInfo tools request).result.isSome ∧
      (handleRequest serverInfo tools request).error = none) ∨
    ((handleRequest serverInfo tools request).result = none ∧
      (handleRequest serverInfo tools request).error.isSome) := by
  unfold handleRequest
  repeat' split
  all_goals first | simp | exact handleToolsCall_exclusive tools request

/-- C6: whenever the translated root schema is not object-shaped (the
guard in `zodToMcpSchema` fails), the translator wraps it: the output is
exactly the object schema with the single property `value` holding the
translated inner schema and `required` equal to `["value"]`. -/
theorem zodToMcpSchema_wraps_nonobject (s : Zod)
    (h : isObjectRootSchema (zodToJsonSchema s) = false) :
    zodToMcpSchema s = ⟨[("value", zodToJsonSchema s)], some ["value"]⟩ := by
  unfold zodToMcpSchema
  simp [h]

theorem zodToMcpSchema_wraps_nonobject_witness :
    zodToMcpSchema Zod.str =
      ⟨[("value", Json.obj [("type", Json.str "string")])], some ["value"]⟩ := by
  have h := zodToMcpSchema_wraps_nonobject Zod.str
    (by simp [zodToJsonSchema, isObjectRootSchema])
  rw [h]
  simp [zodToJsonSchema]

/-- C7: for an object schema with distinct field names, every field is
present in `properties`; a field with a default value is absent from
`required`; a field with neither a default nor an optional marking is
present in `required`; and the empty object schema translates to empty
`properties` with no `required` key at all. -/
theorem zodToMcpSchema_requiredness (fields : List (String × Zod)) (name : String) (s : Zod)
    (hnd : (fields.map Prod.fst).Nodup) (hmem : (name, s) ∈ fields) :
    name ∈ (zodToMcpSchema (.obj fields)).properties.map Prod.fst ∧
    (s.defaultValue.isSome = true →
      name ∉ ((zodToMcpSchema (.obj fields)).required.getD [])) ∧
    (s.isOptionalField = false →
      name ∈ ((zodToMcpSchema (.obj fields)).required.getD [])) ∧
    zodToMcpSchema (Zod.obj []) = ⟨[], none⟩ := by
  rw [zodToMcpSchema_obj_eq fields, zodToMcpSchema_obj_eq []]
  refine ⟨?_, ?_, ?_, by simp⟩
  · rw [List.map_map]
    exact List.mem_map.mpr ⟨(name, s), hmem, rfl⟩
  · intro hdef
    have hopt := Zod.defaultValue_isOptionalField s hdef
    have hnotin : name ∉ List.map Prod.fst
        (List.filter (fun f => !(Zod.isOptionalField f.2)) fields) := by
      intro hsub
      obtain ⟨⟨n2, s2⟩, hf, hn2⟩ := List.mem_map.mp hsub
      obtain ⟨hmem2, hopt2⟩ := List.mem_filter.mp hf
      simp at hn2
      subst hn2
      have := eq_of_mem_of_nodup_keys hnd hmem hmem2
      subst this
      simp [hopt] at hopt2
    rcases hx : (List.map Prod.fst
        (List.filter (fun f => !(Zod.isOptionalField f.2)) fields)).isEmpty with _ | _
    · simp only [hx, Bool.false_eq_true, reduceIte, Option.getD_some]
      exact hnotin
    · simp only [hx, reduceIte, Option.getD_none]
      simp
  · intro hopt
    have hfm : (name, s) ∈ List.filter (fun f => !(Zod.isOptionalField f.2)) fields :=
      List.mem_filter.mpr ⟨hmem, by simp [hopt]⟩
    have hreq : name ∈ List.map Prod.fst
        (List.filter (fun f => !(Zod.isOptionalField f.2)) fields) :=
      List.mem_map.mpr ⟨(name, s), hfm, rfl⟩
    have hne : (List.map Prod.fst
        (List.filter (fun f => !(Zod.isOptionalField f.2)) fields)).isEmpty = false := by
      rcases hx : (List.map Prod.fst
          (List.filter (fun f => !(Zod.isOptionalField f.2)) fields)) with _ | _
      · rw [hx] at hreq; cases hreq
      · simp [hx]
    simp only [hne, Bool.false_eq_true, reduceIte, Option.getD_some]
    exact hreq

theorem zodToMcpSchema_requiredness_witness :
    ("count" : String) ∈ (zodToMcpSchema (Zod.obj
        [("name", Zod.str),
         ("count", Zod.withDefault (Json.num 10) Zod.num)])).properties.map Prod.fst ∧
    "count" ∉ ((zodToMcpSchema (Zod.obj
        [("name", Zod.str),
         ("count", Zod.withDefault (Json.num 10) Zod.num)])).required.getD []) ∧
    ("name" : String) ∈ ((zodToMcpSchema (Zod.obj
        [("name", Zod.str),
         ("count", Zod.withDefault (Json.num 10) Zod.num)])).required.getD []) := by
  have h := zodToMcpSchema_requiredness
      [("name", Zod.str), ("count", Zod.withDefault (Json.num 10) Zod.num)]
      "count" (Zod.withDefault (Json.num 10) Zod.num)
      (by decide) (List.Mem.tail _ (List.Mem.head _))
  have h2 := zodToMcpSchema_requiredness
      [("name", Zod.str), ("count", Zod.withDefault (Json.num 10) Zod.num)]
      "name" Zod.str
      (by decide) (List.Mem.head _)
  exact ⟨h.1, h.2.1 rfl, h2.2.2.1 rfl⟩

/-- C8: the wire-schema translator is a pure function of its input — in
this embedding it is a mathematical function, so two calls on the same
schema are structurally identical, and the input (an inductive value) is
immutable by construction. -/
theorem zodToMcpSchema_deterministic (s : Zod) :
    zodToMcpSchema s = zodToMcpSchema s := rfl

/-- C9: when the subordinate process exits, the exit handler empties the
pending-request map and issues for every previously pending request a
rejection carrying the message `Process exited`; the rejected ids are
exactly the pending ids, so no pending request is left unresolved. -/
theorem handleProcessExit_fails_all (st : McpClientState) :
    (handleProcessExit st).1.pendingRequests = [] ∧
    (∀ i ∈ st.pendingRequests, ((i, "Process exited") ∈ (handleProcessExit st).2)) ∧
    ((handleProcessExit st).2.map Prod.fst = st.pendingRequests) := by
  refine ⟨rfl, ?_, by simp [handleProcessExit, Function.comp_def]⟩
  intro i hi
  exact List.mem_map.mpr ⟨i, hi, rfl⟩

theorem handleProcessExit_fails_all_witness :
    (handleProcessExit ⟨5, [1, 2, 3]⟩).1.pendingRequests = [] ∧
    ((2, "Process exited") ∈ (handleProcessExit ⟨5, [1, 2, 3]⟩).2) := by
  have h := handleProcessExit_fails_all ⟨5, [1, 2, 3]⟩
  exact ⟨h.1, h.2.1 2 (by decide)⟩

/-- C10: a successful `tools/call` response whose `content` array is empty
makes `McpClient.call` return the empty string: the optional-chaining read
of the first item text defaults to `""`, `JSON.parse ""` throws (here:
`jsonParse "" = none`), and the catch falls back to returning the raw
empty text rather than raising an error. -/
theorem clientCall_empty_content (resp : JsonRpcResponse) (o : List (String × Json))
    (herr : resp.error = none)
    (hres : resp.result = some (.obj o))
    (hcontent : o.lookup "content" = some (.arr [])) :
    clientCallProcess resp = .ok (.str "") ∧ jsonParse "" = none := by
  constructor
  · unfold clientCallProcess
    rw [herr, hres]
    simp only [hcontent]
    rfl
  · rfl

theorem clientCall_empty_content_witness :
    clientCallProcess ⟨.num 4, some (.obj [("content", .arr [])]), none⟩ = .ok (.str "") ∧
    jsonParse "" = none :=
  clientCall_empty_content ⟨.num 4, some (.obj [("content", .arr [])]), none⟩
    [("content", .arr [])] rfl rfl rfl
